import Mathlib

/-!
# Shallow embedding of `net/netfilter/nf_tables_offload.c`

This file embeds the nf_tables hardware-offload layer (flow-rule
compilation, the per-compilation dependency context, the commit walk over
the transaction log, and the chain block binder) as executable Lean
definitions and proves the spec's claims about them.

Machine integers are modelled as `Nat`/`Int`; errno values are the negative
integers the C code returns.  Raw `__be16` fields written by `memcpy` are
modelled as a pair of bytes (their in-memory representation).  Kernel
collaborators that live outside the embedded file (`flow_rule_alloc`,
`flow_indr_block_call`, `ndo_setup_tc`, the netlink accessors) are modelled
from the spec where noted.
-/

/-! ## Constants (uapi values) -/

/-- `EOPNOTSUPP` (errno 95); the C code returns its negation. -/
def EOPNOTSUPP : Int := 95

/-- `ENOMEM` (errno 12). -/
def ENOMEM : Int := 12

/-- `NF_ACCEPT` netfilter verdict / chain policy. -/
def NF_ACCEPT : Int := 1

/-- `NF_DROP` netfilter verdict / chain policy. -/
def NF_DROP : Int := 0

/-- `NFPROTO_NETDEV` address family. -/
def NFPROTO_NETDEV : Nat := 5

/-- Netlink flag `NLM_F_REPLACE`. -/
def NLM_F_REPLACE : Nat := 0x100

/-- Netlink flag `NLM_F_APPEND`. -/
def NLM_F_APPEND : Nat := 0x800

/-- Chain flag `NFT_CHAIN_HW_OFFLOAD`. -/
def NFT_CHAIN_HW_OFFLOAD : Nat := 0x2

/-- Expression offload-descriptor flag `NFT_OFFLOAD_F_ACTION` (1 << 0). -/
def NFT_OFFLOAD_F_ACTION : Nat := 1

/-- `ETH_P_ALL` (0x0003) as the two raw bytes the C assignment
`__be16 proto = ETH_P_ALL` stores on a little-endian machine. -/
def ETH_P_ALL_raw : Nat × Nat := (3, 0)

/-! ## Offload context and dependency state (`struct nft_offload_ctx`) -/

/-- `enum nft_offload_dep_type`. -/
inductive NftOffloadDepType where
  | unspec
  | network
  | transport
deriving DecidableEq, Repr

/-- The `dep` sub-struct of `struct nft_offload_ctx`: pending dependency
kind, the raw two bytes of the `__be16 l3num`, and the `u8 protonum`. -/
structure NftOffloadDep where
  type : NftOffloadDepType
  l3num : Nat × Nat
  protonum : Nat
deriving DecidableEq, Repr

/-- One slot of the offload register file (`struct nft_offload_reg`).
The mask is opaque byte data here; this file never reads it. -/
structure NftOffloadReg where
  key : Nat
  len : Nat
  base_offset : Nat
  offset : Nat
  mask : List Nat
deriving DecidableEq, Repr

/-- `struct nft_offload_ctx`: dependency state, action counter and the
16-slot register file, zero-initialised per compilation. -/
structure NftOffloadCtx where
  dep : NftOffloadDep
  num_actions : Nat
  regs : List NftOffloadReg
deriving DecidableEq, Repr

/-- The zero-initialised context `nft_flow_rule_create` starts from
(`.dep.type = NFT_OFFLOAD_DEP_UNSPEC`, everything else zeroed). -/
def initOffloadCtx : NftOffloadCtx :=
  { dep := { type := .unspec, l3num := (0, 0), protonum := 0 }
  , num_actions := 0
  , regs := [] }

/-- `nft_offload_set_dependency`: record the pending dependency kind. -/
def nft_offload_set_dependency (ctx : NftOffloadCtx)
    (type : NftOffloadDepType) : NftOffloadCtx :=
  { ctx with dep := { ctx.dep with type := type } }

/-- `nft_offload_update_dependency`: depending on the pending kind, copy
exactly 2 bytes (`memcpy(&l3num, data, sizeof(__u16))`) or exactly 1 byte
(`memcpy(&protonum, data, sizeof(__u8))`) out of `data`, `WARN_ON` when the
passed `len` differs from that width (the returned `Bool`), and in every
case reset the pending kind to `NFT_OFFLOAD_DEP_UNSPEC`. -/
def nft_offload_update_dependency (ctx : NftOffloadCtx)
    (data : List Nat) (len : Nat) : NftOffloadCtx × Bool :=
  match ctx.dep.type with
  | .network =>
      ({ ctx with dep := { ctx.dep with
            type := .unspec
          , l3num := (data.getD 0 0, data.getD 1 0) } },
       len != 2)
  | .transport =>
      ({ ctx with dep := { ctx.dep with
            type := .unspec
          , protonum := data.getD 0 0 } },
       len != 1)
  | .unspec =>
      ({ ctx with dep := { ctx.dep with type := .unspec } }, false)

/-! ## Flow rules and the compiler (`nft_flow_rule_create`) -/

/-- Modelled from the spec: `struct flow_rule` as returned by the external
`flow_rule_alloc(num_actions)` (net/core/flow_offload.c).  The spec only
relies on the action-list capacity fixed at allocation, so the model keeps
that capacity. -/
structure FlowRule where
  num_actions : Nat
deriving DecidableEq, Repr

/-- `struct nft_flow_match`: key/mask byte storage, opaque to this file
(written only by the expressions' offload callbacks). -/
structure NftFlowMatch where
  key : List Nat
  mask : List Nat
deriving DecidableEq, Repr

/-- `struct nft_flow_rule`: protocol tag (raw `__be16` bytes), match
storage, and the allocated `flow_rule` with its action capacity. -/
structure NftFlowRule where
  proto : Nat × Nat
  flow_match : NftFlowMatch
  rule : FlowRule
deriving DecidableEq, Repr

/-- `struct nft_expr_ops`, restricted to what this file reads: the offload
descriptor flags and the optional offload-compile entry point
`(ctx, flow, expr) -> err`, which may rewrite the context and the flow
rule.  The expression argument is captured in the closure. -/
structure NftExprOps where
  offload_flags : Nat
  offload : Option (NftOffloadCtx → NftFlowRule →
      NftOffloadCtx × NftFlowRule × Int)

/-- `struct nft_expr`: only its ops are read here. -/
structure NftExpr where
  ops : NftExprOps

/-- A rule's expression sequence, as walked by
`nft_expr_first`/`nft_expr_next` up to `nft_expr_last`. -/
abbrev NftRule := List NftExpr

/-- The first loop of `nft_flow_rule_create`: count the expressions whose
descriptor carries `NFT_OFFLOAD_F_ACTION`. -/
def countActionExprs : NftRule → Nat
  | [] => 0
  | e :: es =>
      (if e.ops.offload_flags &&& NFT_OFFLOAD_F_ACTION != 0 then 1 else 0) +
        countActionExprs es

/-- `nft_flow_rule_alloc`: zero-allocate the `nft_flow_rule` and its inner
`flow_rule` sized for `num_actions` actions; the match dissector/key/mask
pointers are wired to the rule's own embedded storage (here: the one
`flow_match` field).  Allocation failure (`-ENOMEM`) is not modelled. -/
def nft_flow_rule_alloc (num_actions : Nat) : NftFlowRule :=
  { proto := (0, 0)
  , flow_match := { key := [], mask := [] }
  , rule := { num_actions := num_actions } }

/-- The second loop of `nft_flow_rule_create`: walk the expressions in
order; an expression without an offload entry point aborts with
`-EOPNOTSUPP`; an offload call returning a negative error aborts with that
error; otherwise thread the updated context and flow rule onward. -/
def compileExprs : NftRule → NftOffloadCtx → NftFlowRule →
    Except Int (NftOffloadCtx × NftFlowRule)
  | [], ctx, flow => .ok (ctx, flow)
  | e :: es, ctx, flow =>
      match e.ops.offload with
      | none => .error (-EOPNOTSUPP)
      | some f =>
          if (f ctx flow).2.2 < 0 then .error ((f ctx flow).2.2)
          else compileExprs es (f ctx flow).1 (f ctx flow).2.1

/-- Result of `nft_flow_rule_create`, with two internal steps made
observable: the action-list capacity passed to the allocator
(`nft_flow_rule_alloc(num_actions)`) and whether the `err_out:` label ran
`nft_flow_rule_destroy` on the partially built flow rule. -/
structure CreateResult where
  result : Except Int NftFlowRule
  num_actions_allocated : Nat
  destroyed : Bool

/-- `nft_flow_rule_create`: count action-bearing expressions, allocate the
flow rule with that capacity, compile each expression in order, and on
success stamp the protocol tag from the final captured network-layer
dependency.  On any per-expression failure the partial flow rule is
destroyed and the error returned. -/
def nft_flow_rule_create (rule : NftRule) : CreateResult :=
  match compileExprs rule initOffloadCtx
      (nft_flow_rule_alloc (countActionExprs rule)) with
  | .ok p =>
      { result := .ok { p.2 with proto := p.1.dep.l3num }
      , num_actions_allocated := countActionExprs rule
      , destroyed := false }
  | .error err =>
      { result := .error err
      , num_actions_allocated := countActionExprs rule
      , destroyed := true }

/-- `nft_flow_rule_destroy`: frees both allocations; in the value model its
effect is the ownership transfer recorded by callers (`CreateResult.destroyed`,
the commit walk's destroy events). -/
def nft_flow_rule_destroy (_flow : NftFlowRule) : Unit := ()

/-! ## Hardware commands and callback dispatch -/

/-- `enum flow_cls_command`, the commands this file issues. -/
inductive FlowClsCommand where
  | replace
  | destroy
deriving DecidableEq, Repr

/-- `enum flow_block_command`. -/
inductive FlowBlockCommand where
  | bind
  | unbind
deriving DecidableEq, Repr

/-- `struct flow_cls_offload` as built by `nft_flow_offload_rule`:
command kind, cookie (the rule's address, used as an opaque identifier),
the protocol tag (raw `__be16` bytes), and the optional compiled rule. -/
structure FlowClsOffload where
  command : FlowClsCommand
  cookie : Nat
  protocol : Nat × Nat
  rule : Option FlowRule

/-- `struct flow_block_cb`: one registered driver callback.  The `id`
identifies the registration; `cb` is the driver's classification callback,
invoked here only with `TC_SETUP_CLSFLOWER` payloads, returning an errno
(negative on failure).  `cb_priv` is captured in the closure. -/
structure FlowBlockCb where
  id : Nat
  cb : FlowClsOffload → Int

/-- `nft_setup_cb_call`: dispatch `type_data` to every callback on the
chain's block list in registration order; a callback returning a negative
error stops the walk with that error.  Also returns the ids of the
callbacks actually invoked, in invocation order. -/
def nft_setup_cb_call : List FlowBlockCb → FlowClsOffload →
    Int × List Nat
  | [], _ => (0, [])
  | c :: rest, type_data =>
      if c.cb type_data < 0 then (c.cb type_data, [c.id])
      else ((nft_setup_cb_call rest type_data).1,
            c.id :: (nft_setup_cb_call rest type_data).2)

/-! ## Devices, chains and tables -/

/-- Modelled from the spec: the device collaborator (`struct net_device`).
`ndo_setup_tc` is the optional native classification-setup entry point;
given the block command it returns the driver's errno and the callback
list the driver placed on `bo->cb_list`.  `indr_cbs` models
`flow_indr_block_call`: the callbacks that driver-agnostic indirect
registrations add to `bo->cb_list` in response to the given command. -/
structure NetDevice where
  name : String
  ndo_setup_tc : Option (FlowBlockCommand → Int × List FlowBlockCb)
  indr_cbs : FlowBlockCommand → List FlowBlockCb

/-- `struct nft_base_chain`, restricted to what this file reads: the hook
device (`ops.dev`, absent for chains not attached to a device), the device
name used by the late-join search, and the offload block's callback list
(`flow_block.cb_list`). -/
structure NftBaseChain where
  dev : Option NetDevice
  dev_name : String
  cb_list : List FlowBlockCb

/-- `struct nft_chain`: its id stands for the chain's address (transaction
records point at chains), `flags` holds `NFT_CHAIN_HW_OFFLOAD`, and
`base` is `some` exactly when `nft_is_base_chain` holds, carrying the
base-chain payload `nft_base_chain` would give. -/
structure NftChain where
  id : Nat
  flags : Nat
  base : Option NftBaseChain

/-- `nft_is_base_chain`. -/
def nft_is_base_chain (c : NftChain) : Bool := c.base.isSome

/-- `struct nft_table`, restricted to its family and chain list. -/
structure NftTable where
  family : Nat
  chains : List NftChain

/-! ## Chain block binder -/

/-- `nft_flow_offload_bind`: `list_splice(&bo->cb_list, &chain->cb_list)`
puts the newly supplied callbacks at the head of the chain's block list,
keeping the existing entries; always returns 0. -/
def nft_flow_offload_bind (bo_cbs chain_cbs : List FlowBlockCb) :
    Int × List FlowBlockCb :=
  (0, bo_cbs ++ chain_cbs)

/-- `nft_flow_offload_unbind`: frees every callback on `bo->cb_list`.  The
driver moved those entries out of the chain's block list into `bo` before
this runs (`flow_block_cb_remove` does a `list_move`), so with value
semantics the aggregate effect is dropping the chain-list entries whose id
the driver put on `bo`; always returns 0. -/
def nft_flow_offload_unbind (bo_cbs chain_cbs : List FlowBlockCb) :
    Int × List FlowBlockCb :=
  (0, chain_cbs.filter (fun c => !(bo_cbs.any (fun b => b.id == c.id))))

/-- `nft_block_setup`: splice on `FLOW_BLOCK_BIND`, remove on
`FLOW_BLOCK_UNBIND`. -/
def nft_block_setup (chain_cbs : List FlowBlockCb)
    (bo_cbs : List FlowBlockCb) (cmd : FlowBlockCommand) :
    Int × List FlowBlockCb :=
  match cmd with
  | .bind => nft_flow_offload_bind bo_cbs chain_cbs
  | .unbind => nft_flow_offload_unbind bo_cbs chain_cbs

/-- `nft_block_offload_cmd` (direct path): call the device's native
`ndo_setup_tc` with a fresh `flow_block_offload`; a negative driver errno
is returned with the chain's list untouched, otherwise the driver's
callback list is spliced in (bind) or removed (unbind).  The caller
guarantees `ndo_setup_tc` is present; absence maps to the rejected
branch. -/
def nft_block_offload_cmd (chain_cbs : List FlowBlockCb) (dev : NetDevice)
    (cmd : FlowBlockCommand) : Int × List FlowBlockCb :=
  match dev.ndo_setup_tc with
  | none => (-EOPNOTSUPP, chain_cbs)
  | some setup =>
      if (setup cmd).1 < 0 then ((setup cmd).1, chain_cbs)
      else nft_block_setup chain_cbs (setup cmd).2 cmd

/-- `nft_indr_block_offload_cmd` (indirect path): let
`flow_indr_block_call` ask the driver-agnostic registrations to add
callbacks to `bo->cb_list`; if none did, fail with `-EOPNOTSUPP`,
otherwise run `nft_block_setup` on the supplied list. -/
def nft_indr_block_offload_cmd (chain_cbs : List FlowBlockCb)
    (dev : NetDevice) (cmd : FlowBlockCommand) : Int × List FlowBlockCb :=
  if (dev.indr_cbs cmd).isEmpty then (-EOPNOTSUPP, chain_cbs)
  else nft_block_setup chain_cbs (dev.indr_cbs cmd) cmd

/-! ## Transaction records and the commit walk -/

/-- The `NFT_MSG_*` kinds the commit walk distinguishes; every other
message type falls through the `switch` untouched. -/
inductive NftMsgType where
  | newchain
  | delchain
  | newrule
  | delrule
  | other
deriving DecidableEq, Repr

/-- `struct nft_trans`, restricted to the fields this file reads:
`ctx.family`, `msg_type`, the owning chain (by id into the chain store),
the netlink flags `ctx.flags` (read for new-rule records), the staged
chain policy (`nft_trans_chain_policy`, modelled from the spec as an
integer where `-1` means unset), the rule's address
(`nft_trans_rule`, used as the command cookie) and the attached compiled
flow rule (`nft_trans_flow_rule`). -/
structure NftTrans where
  family : Nat
  msg_type : NftMsgType
  chain : Nat
  flags : Nat
  policy : Int
  rule_id : Nat
  flow : Option NftFlowRule

/-- Chain-store lookup by id (transaction records hold chain pointers). -/
def chainById (chains : List NftChain) (cid : Nat) : Option NftChain :=
  chains.find? (fun c => c.id == cid)

/-- A chain pointer dereference: records in a well-formed log always name
an existing chain; for totality a missing id yields an inert chain (no
flags, not a base chain). -/
def getChain (chains : List NftChain) (cid : Nat) : NftChain :=
  (chainById chains cid).getD { id := cid, flags := 0, base := none }

/-- Write back one (possibly updated) chain into the store. -/
def setChain (chains : List NftChain) (c : NftChain) : List NftChain :=
  chains.map (fun x => if x.id == c.id then c else x)

/-- The observable effects of one commit walk, in the order they were
applied: hardware commands dispatched to a chain's block (with the invoked
callback ids and the dispatch result), block bind/unbind on a chain, and
destruction of a record's compiled flow rule. -/
inductive CommitEvent where
  | hwCmd (chainId : Nat) (cls : FlowClsOffload) (invoked : List Nat) (err : Int)
  | blockCmd (chainId : Nat) (cmd : FlowBlockCommand) (err : Int)
  | destroyFlow (ruleId : Nat)

/-- The `flow_cls_offload` descriptor `nft_flow_offload_rule` builds for a
record: the command, the rule's address as cookie, the protocol from the
compiled rule when there is one (else `ETH_P_ALL`), and the compiled
`flow_rule` when there is one. -/
def ruleClsDescriptor (t : NftTrans) (command : FlowClsCommand) :
    FlowClsOffload :=
  { command := command
  , cookie := t.rule_id
  , protocol := match t.flow with
      | some flow => flow.proto
      | none => ETH_P_ALL_raw
  , rule := t.flow.map (fun f => f.rule) }

/-- `nft_flow_offload_rule`: refuse non-base chains; build the
`flow_cls_offload` descriptor and dispatch it to the chain's block. -/
def nft_flow_offload_rule (chains : List NftChain) (t : NftTrans)
    (command : FlowClsCommand) : Int × List CommitEvent :=
  match (getChain chains t.chain).base with
  | none => (-EOPNOTSUPP, [])
  | some bc =>
      ((nft_setup_cb_call bc.cb_list (ruleClsDescriptor t command)).1,
       [.hwCmd (getChain chains t.chain).id (ruleClsDescriptor t command)
          (nft_setup_cb_call bc.cb_list (ruleClsDescriptor t command)).2
          (nft_setup_cb_call bc.cb_list (ruleClsDescriptor t command)).1])

/-- The dispatch `nft_flow_offload_chain` makes once its checks pass:
the direct path when the device has a native `ndo_setup_tc`, the indirect
path otherwise. -/
def blockCmdResult (bc : NftBaseChain) (dev : NetDevice)
    (cmd : FlowBlockCommand) : Int × List FlowBlockCb :=
  if (dev.ndo_setup_tc).isSome then nft_block_offload_cmd bc.cb_list dev cmd
  else nft_indr_block_offload_cmd bc.cb_list dev cmd

/-- `nft_flow_offload_chain`: refuse non-base chains and chains without a
hook device; on bind, refuse any staged policy other than accept or unset
(`policy != -1 && policy != NF_ACCEPT`); then take the direct path when
the device has a native `ndo_setup_tc`, the indirect path otherwise.
Returns the errno, the updated chain store and the block event. -/
def nft_flow_offload_chain (chains : List NftChain) (t : NftTrans)
    (cmd : FlowBlockCommand) : Int × List NftChain × List CommitEvent :=
  match (getChain chains t.chain).base with
  | none => (-EOPNOTSUPP, chains, [])
  | some bc =>
      match bc.dev with
      | none => (-EOPNOTSUPP, chains, [])
      | some dev =>
          if cmd == .bind && t.policy != -1 && t.policy != NF_ACCEPT then
            (-EOPNOTSUPP, chains, [])
          else
            ((blockCmdResult bc dev cmd).1,
             setChain chains { getChain chains t.chain with
               base := some { bc with cb_list := (blockCmdResult bc dev cmd).2 } },
             [.blockCmd (getChain chains t.chain).id cmd
                (blockCmdResult bc dev cmd).1])

/-- What processing one transaction record does: records skipped by the
family or hardware-offload filters (`continue`) versus records that ran
and produced an errno, an updated chain store and events. -/
inductive ProcOut where
  | skip
  | did (err : Int) (chains : List NftChain) (evs : List CommitEvent)

/-- The `switch (trans->msg_type)` body of `nft_flow_rule_offload_commit`
for one record, including the family filter and the per-case
`NFT_CHAIN_HW_OFFLOAD` filter.  A new-rule record whose netlink flags have
`NLM_F_REPLACE` set or `NLM_F_APPEND` clear returns `-EOPNOTSUPP` at once,
without touching its flow rule; an accepted new-rule record dispatches
`FLOW_CLS_REPLACE` and then destroys the record's flow rule whatever the
dispatch returned; a delete-rule record dispatches `FLOW_CLS_DESTROY`. -/
def processTrans (chains : List NftChain) (t : NftTrans) : ProcOut :=
  if t.family != NFPROTO_NETDEV then .skip
  else
    match t.msg_type with
    | .newchain =>
        if (getChain chains t.chain).flags &&& NFT_CHAIN_HW_OFFLOAD == 0 then .skip
        else
          .did (nft_flow_offload_chain chains t .bind).1
            (nft_flow_offload_chain chains t .bind).2.1
            (nft_flow_offload_chain chains t .bind).2.2
    | .delchain =>
        if (getChain chains t.chain).flags &&& NFT_CHAIN_HW_OFFLOAD == 0 then .skip
        else
          .did (nft_flow_offload_chain chains t .unbind).1
            (nft_flow_offload_chain chains t .unbind).2.1
            (nft_flow_offload_chain chains t .unbind).2.2
    | .newrule =>
        if (getChain chains t.chain).flags &&& NFT_CHAIN_HW_OFFLOAD == 0 then .skip
        else
          if t.flags &&& NLM_F_REPLACE != 0 || t.flags &&& NLM_F_APPEND == 0 then
            .did (-EOPNOTSUPP) chains []
          else
            .did (nft_flow_offload_rule chains t .replace).1 chains
              ((nft_flow_offload_rule chains t .replace).2
                ++ [.destroyFlow t.rule_id])
    | .delrule =>
        if (getChain chains t.chain).flags &&& NFT_CHAIN_HW_OFFLOAD == 0 then .skip
        else
          .did (nft_flow_offload_rule chains t .destroy).1 chains
            (nft_flow_offload_rule chains t .destroy).2
    | .other => .skip

/-- `nft_flow_rule_offload_commit`: walk the transaction log in insertion
order; skipped records leave no trace; the first record whose processing
yields a nonzero errno stops the walk, returning that errno with the
effects applied so far; a fully processed log returns 0. -/
def nft_flow_rule_offload_commit :
    List NftTrans → List NftChain → Int × List NftChain × List CommitEvent
  | [], chains => (0, chains, [])
  | t :: rest, chains =>
      match processTrans chains t with
      | .skip => nft_flow_rule_offload_commit rest chains
      | .did err chains2 evs =>
          if err != 0 then (err, chains2, evs)
          else
            ((nft_flow_rule_offload_commit rest chains2).1,
             (nft_flow_rule_offload_commit rest chains2).2.1,
             evs ++ (nft_flow_rule_offload_commit rest chains2).2.2)

/-! ## Late join (`nft_indr_block_get_and_ing_cmd`) -/

/-- Modelled from the spec: a newly available driver-agnostic callback
(`flow_indr_block_bind_cb_t` plus its `cb_priv`): invoked with a fresh
`flow_block_offload`, it returns the callbacks it adds to `bo->cb_list`
for the given command (its own `int` result is ignored by the caller). -/
structure IndrCb where
  provide : FlowBlockCommand → List FlowBlockCb

/-- `nft_indr_block_ing_cmd`: build a fresh `flow_block_offload`, let the
newly available callback populate it, and run `nft_block_setup` on the
chain's block (splice on bind, remove on unbind).  Returns the updated
base-chain callback list; the `Bool` records that `cb` was invoked. -/
def nft_indr_block_ing_cmd (bc : NftBaseChain) (cb : IndrCb)
    (cmd : FlowBlockCommand) : NftBaseChain × Bool :=
  ({ bc with cb_list := (nft_block_setup bc.cb_list (cb.provide cmd) cmd).2 },
   true)

/-- One chain of the late-join scan: does this chain stop the search?
`nft_is_base_chain(chain) && !strncmp(basechain->dev_name, dev->name,
IFNAMSIZ)` (interface names fit in `IFNAMSIZ`, so the bounded compare is
string equality). -/
def lateJoinMatch (devname : String) (c : NftChain) : Bool :=
  match c.base with
  | some bc => bc.dev_name == devname
  | none => false

/-- The inner chain loop of `nft_indr_block_get_and_ing_cmd` over one
table's chains: dispatch on the first matching base chain and stop.
Returns the updated chain list and how often `cb` was invoked. -/
def lateJoinChains (devname : String) (cb : IndrCb) (cmd : FlowBlockCommand) :
    List NftChain → List NftChain × Nat
  | [] => ([], 0)
  | c :: cs =>
      if lateJoinMatch devname c then
        match c.base with
        | some bc =>
            ({ c with base := some (nft_indr_block_ing_cmd bc cb cmd).1 } :: cs, 1)
        | none => (c :: cs, 0)
      else
        (c :: (lateJoinChains devname cb cmd cs).1,
         (lateJoinChains devname cb cmd cs).2)

/-- `nft_indr_block_get_and_ing_cmd`: scan the device-family tables in
order and, inside the first `NFPROTO_NETDEV` table holding a base chain
whose device name matches, replay the block command through the new
callback alone, then return.  Returns the updated table list and the
number of times `cb` was invoked. -/
def nft_indr_block_get_and_ing_cmd (devname : String) (cb : IndrCb)
    (cmd : FlowBlockCommand) : List NftTable → List NftTable × Nat
  | [] => ([], 0)
  | tb :: tbs =>
      if tb.family != NFPROTO_NETDEV then
        (tb :: (nft_indr_block_get_and_ing_cmd devname cb cmd tbs).1,
         (nft_indr_block_get_and_ing_cmd devname cb cmd tbs).2)
      else
        if (lateJoinChains devname cb cmd tb.chains).2 == 0 then
          ({ tb with chains := (lateJoinChains devname cb cmd tb.chains).1 }
              :: (nft_indr_block_get_and_ing_cmd devname cb cmd tbs).1,
           (nft_indr_block_get_and_ing_cmd devname cb cmd tbs).2)
        else
          ({ tb with chains := (lateJoinChains devname cb cmd tb.chains).1 }
              :: tbs,
           (lateJoinChains devname cb cmd tb.chains).2)

/-! ## Predicates describing a compilation run -/

/-- The dynamic premise of the compile loop succeeding: every expression
exposes an offload entry point and, threading the context and flow rule
exactly as `compileExprs` does, every call returns a non-negative
result. -/
def offloadCallsSucceed : NftRule → NftOffloadCtx → NftFlowRule → Prop
  | [], _, _ => True
  | e :: es, ctx, flow =>
      match e.ops.offload with
      | none => False
      | some f =>
          0 ≤ (f ctx flow).2.2 ∧
            offloadCallsSucceed es (f ctx flow).1 (f ctx flow).2.1

/-- The compile loop reaches an expression without an offload entry point:
every call made before it returns a non-negative result, threading state
as `compileExprs` does. -/
def reachesMissingOffload : NftRule → NftOffloadCtx → NftFlowRule → Prop
  | [], _, _ => False
  | e :: es, ctx, flow =>
      match e.ops.offload with
      | none => True
      | some f =>
          0 ≤ (f ctx flow).2.2 ∧
            reachesMissingOffload es (f ctx flow).1 (f ctx flow).2.1

/-! ## Concrete fixtures used by the witnesses and counterexamples -/

/-- An offloadable, action-bearing expression whose compile step succeeds
without touching the state. -/
def exprOkAction : NftExpr :=
  { ops := { offload_flags := 1, offload := some (fun c f => (c, f, 0)) } }

/-- An offloadable, non-action expression whose compile step succeeds. -/
def exprOkPlain : NftExpr :=
  { ops := { offload_flags := 0, offload := some (fun c f => (c, f, 0)) } }

/-- An offloadable expression whose compile step fails with `-EINVAL`. -/
def exprFailInval : NftExpr :=
  { ops := { offload_flags := 0, offload := some (fun c f => (c, f, -22)) } }

/-- An expression that declares no offload capability at all. -/
def exprNoOffload : NftExpr :=
  { ops := { offload_flags := 0, offload := none } }

/-- A context with a pending network-layer dependency. -/
def ctxNetworkEx : NftOffloadCtx :=
  { dep := { type := .network, l3num := (0, 0), protonum := 7 }
  , num_actions := 0
  , regs := [] }

/-- A driver callback that accepts every command. -/
def cbOk : FlowBlockCb := { id := 10, cb := fun _ => 0 }

/-- A second accepting driver callback. -/
def cbOk2 : FlowBlockCb := { id := 12, cb := fun _ => 0 }

/-- A driver callback that rejects every command with `-EINVAL`. -/
def cbFail : FlowBlockCb := { id := 11, cb := fun _ => -22 }

/-- A device with a native `ndo_setup_tc` that accepts and registers
`cbOk`. -/
def devDirect : NetDevice :=
  { name := "eth0"
  , ndo_setup_tc := some (fun _ => (0, [cbOk]))
  , indr_cbs := fun _ => [] }

/-- A device without a native entry point and with no indirect
registrations. -/
def devIndirNone : NetDevice :=
  { name := "eth1"
  , ndo_setup_tc := none
  , indr_cbs := fun _ => [] }

/-- A device without a native entry point whose indirect registration
supplies `cbOk`. -/
def devIndirSome : NetDevice :=
  { name := "eth1"
  , ndo_setup_tc := none
  , indr_cbs := fun _ => [cbOk] }

/-- An offload-enabled base chain on `devDirect` with one callback already
bound. -/
def chainHW : NftChain :=
  { id := 1
  , flags := NFT_CHAIN_HW_OFFLOAD
  , base := some { dev := some devDirect, dev_name := "eth0", cb_list := [cbOk2] } }

/-- An offload-enabled chain that is not a base chain. -/
def chainHWNoBase : NftChain :=
  { id := 2, flags := NFT_CHAIN_HW_OFFLOAD, base := none }

/-- A new-chain transaction record on `chainHW` with the given staged
policy. -/
def transNewChain (policy : Int) : NftTrans :=
  { family := NFPROTO_NETDEV
  , msg_type := .newchain
  , chain := 1
  , flags := 0
  , policy := policy
  , rule_id := 0
  , flow := none }

/-- A new-rule transaction record on `chainHW` with the given netlink
flags and attached flow rule. -/
def transNewRule (flags : Nat) (flow : Option NftFlowRule) : NftTrans :=
  { family := NFPROTO_NETDEV
  , msg_type := .newrule
  , chain := 1
  , flags := flags
  , policy := -1
  , rule_id := 77
  , flow := flow }

/-- A new-chain record naming the non-base chain `chainHWNoBase`; its
processing fails with `-EOPNOTSUPP`. -/
def transFailChain : NftTrans :=
  { family := NFPROTO_NETDEV
  , msg_type := .newchain
  , chain := 2
  , flags := 0
  , policy := NF_ACCEPT
  , rule_id := 0
  , flow := none }

/-- A record of a family the walk skips. -/
def transOtherFamily : NftTrans :=
  { family := 2
  , msg_type := .newchain
  , chain := 1
  , flags := 0
  , policy := NF_ACCEPT
  , rule_id := 0
  , flow := none }

/-- A compiled flow rule with two action slots, used as record payload. -/
def flowEx : NftFlowRule :=
  { proto := (8, 0)
  , flow_match := { key := [], mask := [] }
  , rule := { num_actions := 2 } }

/-- The newly available driver-agnostic callback of the late-join
scenario: it registers `cbOk` for any replayed command. -/
def indrCbEx : IndrCb := { provide := fun _ => [cbOk] }

/-- A base chain on device `eth1` with one already-bound callback. -/
def chainLateJoin : NftChain :=
  { id := 5
  , flags := NFT_CHAIN_HW_OFFLOAD
  , base := some { dev := some devIndirSome, dev_name := "eth1", cb_list := [cbOk2] } }

/-- A base chain bound to a different device. -/
def chainOtherDev : NftChain :=
  { id := 6
  , flags := NFT_CHAIN_HW_OFFLOAD
  , base := some { dev := none, dev_name := "eth9", cb_list := [cbFail] } }

/-- A table of a non-device family, skipped by the late-join scan. -/
def tableIpv4 : NftTable := { family := 2, chains := [chainOtherDev] }

/-- The device-family table holding first a non-matching chain and then
the late-join target. -/
def tableNetdev : NftTable :=
  { family := NFPROTO_NETDEV, chains := [chainOtherDev, chainLateJoin] }

/-- A concrete classification descriptor, used by witnesses. -/
def clsEx : FlowClsOffload :=
  { command := .replace, cookie := 77, protocol := (8, 0), rule := none }

/-- A new-chain record naming `chainLateJoin` (whose device has no native
entry point), with accept policy. -/
def transBindIndir : NftTrans :=
  { family := NFPROTO_NETDEV
  , msg_type := .newchain
  , chain := 5
  , flags := 0
  , policy := NF_ACCEPT
  , rule_id := 0
  , flow := none }

/-! ## Helper lemmas -/

/-- Commit-walk step at a skipped record. -/
theorem commit_cons_skip (t : NftTrans) (rest : List NftTrans)
    (chains : List NftChain) (hp : processTrans chains t = .skip) :
    nft_flow_rule_offload_commit (t :: rest) chains
      = nft_flow_rule_offload_commit rest chains := by
  conv_lhs => unfold nft_flow_rule_offload_commit
  rw [hp]

/-- Commit-walk step at a processed record. -/
theorem commit_cons_did (t : NftTrans) (rest : List NftTrans)
    (chains chains2 : List NftChain) (err : Int) (evs : List CommitEvent)
    (hp : processTrans chains t = .did err chains2 evs) :
    nft_flow_rule_offload_commit (t :: rest) chains
      = if err != 0 then (err, chains2, evs)
        else ((nft_flow_rule_offload_commit rest chains2).1,
              (nft_flow_rule_offload_commit rest chains2).2.1,
              evs ++ (nft_flow_rule_offload_commit rest chains2).2.2) := by
  conv_lhs => unfold nft_flow_rule_offload_commit
  rw [hp]

/-- Appending to a log whose prefix commits cleanly: the walk just carries
the prefix's chain store and event trace into the rest of the log. -/
theorem commit_append_of_ok :
    ∀ (pre l2 : List NftTrans) (chains chains1 : List NftChain)
      (evs1 : List CommitEvent),
      nft_flow_rule_offload_commit pre chains = (0, chains1, evs1) →
      nft_flow_rule_offload_commit (pre ++ l2) chains
        = ((nft_flow_rule_offload_commit l2 chains1).1,
           (nft_flow_rule_offload_commit l2 chains1).2.1,
           evs1 ++ (nft_flow_rule_offload_commit l2 chains1).2.2)
  | [], l2, chains, chains1, evs1, h => by
      have h' : ((0 : Int), chains, ([] : List CommitEvent))
          = (0, chains1, evs1) := h
      injection h' with ha hb
      injection hb with hb1 hb2
      subst hb1
      subst hb2
      simp
  | t :: pre, l2, chains, chains1, evs1, h => by
      cases hp : processTrans chains t with
      | skip =>
          rw [commit_cons_skip t pre chains hp] at h
          rw [List.cons_append, commit_cons_skip t (pre ++ l2) chains hp]
          exact commit_append_of_ok pre l2 chains chains1 evs1 h
      | did err cs2 evs =>
          rw [commit_cons_did t pre chains cs2 err evs hp] at h
          by_cases herr : err = 0
          · subst herr
            rw [if_neg (by simp)] at h
            injection h with h1 hrest
            injection hrest with h2 h3
            have hpre : nft_flow_rule_offload_commit pre cs2
                = (0, (nft_flow_rule_offload_commit pre cs2).2.1,
                   (nft_flow_rule_offload_commit pre cs2).2.2) := by
              rw [← h1]
            have ih := commit_append_of_ok pre l2 cs2
              (nft_flow_rule_offload_commit pre cs2).2.1
              (nft_flow_rule_offload_commit pre cs2).2.2 hpre
            rw [List.cons_append,
              commit_cons_did t (pre ++ l2) chains cs2 0 evs hp,
              if_neg (by simp)]
            simp only [ih, ← h2, ← h3, List.append_assoc]
          · rw [if_pos (bne_iff_ne.mpr herr)] at h
            injection h with h1 hrest
            exact absurd h1 herr

/-- Records of a family other than `NFPROTO_NETDEV` are skipped. -/
theorem processTrans_skip_family (chains : List NftChain) (t : NftTrans)
    (h : t.family ≠ NFPROTO_NETDEV) :
    processTrans chains t = .skip := by
  unfold processTrans
  rw [if_pos (bne_iff_ne.mpr h)]

/-- Records whose owning chain lacks `NFT_CHAIN_HW_OFFLOAD` are skipped
(message types outside the four handled kinds fall through untouched). -/
theorem processTrans_skip_flag (chains : List NftChain) (t : NftTrans)
    (h : (getChain chains t.chain).flags &&& NFT_CHAIN_HW_OFFLOAD = 0) :
    processTrans chains t = .skip := by
  unfold processTrans
  by_cases hfam : t.family = NFPROTO_NETDEV
  · rw [if_neg (by simp [hfam])]
    cases t.msg_type <;> simp [h]
  · rw [if_pos (bne_iff_ne.mpr hfam)]

/-- Step of the compile loop at an expression without an offload entry
point. -/
theorem compileExprs_cons_none (e : NftExpr) (es : NftRule)
    (ctx : NftOffloadCtx) (flow : NftFlowRule)
    (ho : e.ops.offload = none) :
    compileExprs (e :: es) ctx flow = .error (-EOPNOTSUPP) := by
  unfold compileExprs
  rw [ho]

/-- Step of the compile loop at an offloadable expression. -/
theorem compileExprs_cons_some (e : NftExpr) (es : NftRule)
    (ctx : NftOffloadCtx) (flow : NftFlowRule)
    (f : NftOffloadCtx → NftFlowRule → NftOffloadCtx × NftFlowRule × Int)
    (ho : e.ops.offload = some f) :
    compileExprs (e :: es) ctx flow
      = if (f ctx flow).2.2 < 0 then .error ((f ctx flow).2.2)
        else compileExprs es (f ctx flow).1 (f ctx flow).2.1 := by
  conv_lhs => unfold compileExprs
  rw [ho]

/-- When every offload call in the sequence succeeds, the compile loop
completes. -/
theorem compileExprs_ok_of_succeed :
    ∀ (l : NftRule) (ctx : NftOffloadCtx) (flow : NftFlowRule),
      offloadCallsSucceed l ctx flow →
      ∃ p, compileExprs l ctx flow = .ok p
  | [], ctx, flow, _ => ⟨(ctx, flow), rfl⟩
  | e :: es, ctx, flow, h => by
      unfold offloadCallsSucceed at h
      split at h
      · exact h.elim
      · rename_i f ho
        obtain ⟨p, hp⟩ := compileExprs_ok_of_succeed es (f ctx flow).1
          (f ctx flow).2.1 h.2
        refine ⟨p, ?_⟩
        rw [compileExprs_cons_some e es ctx flow f ho,
          if_neg (not_lt.mpr h.1)]
        exact hp

/-- A rule containing an expression without an offload entry point never
compiles: the loop errors out somewhere. -/
theorem compileExprs_error_of_missing :
    ∀ (l : NftRule) (ctx : NftOffloadCtx) (flow : NftFlowRule),
      (∃ e ∈ l, e.ops.offload = none) →
      ∃ err, compileExprs l ctx flow = .error err
  | [], _, _, h => by simp at h
  | e :: es, ctx, flow, h => by
      cases ho : e.ops.offload with
      | none => exact ⟨-EOPNOTSUPP, compileExprs_cons_none e es ctx flow ho⟩
      | some f =>
          have hes : ∃ e2 ∈ es, e2.ops.offload = none := by
            rcases h with ⟨e2, he2, hnone⟩
            rcases List.mem_cons.mp he2 with rfl | hmem
            · rw [ho] at hnone; cases hnone
            · exact ⟨e2, hmem, hnone⟩
          rw [compileExprs_cons_some e es ctx flow f ho]
          by_cases herr : (f ctx flow).2.2 < 0
          · exact ⟨(f ctx flow).2.2, by rw [if_pos herr]⟩
          · obtain ⟨err, hp⟩ := compileExprs_error_of_missing es (f ctx flow).1
              (f ctx flow).2.1 hes
            exact ⟨err, by rw [if_neg herr]; exact hp⟩

/-- When the loop reaches an expression without an offload entry point
(all earlier calls non-negative), the error is exactly `-EOPNOTSUPP`. -/
theorem compileExprs_eopnotsupp_of_reaches :
    ∀ (l : NftRule) (ctx : NftOffloadCtx) (flow : NftFlowRule),
      reachesMissingOffload l ctx flow →
      compileExprs l ctx flow = .error (-EOPNOTSUPP)
  | [], _, _, h => h.elim
  | e :: es, ctx, flow, h => by
      unfold reachesMissingOffload at h
      split at h
      · rename_i ho
        exact compileExprs_cons_none e es ctx flow ho
      · rename_i f ho
        rw [compileExprs_cons_some e es ctx flow f ho,
          if_neg (not_lt.mpr h.1)]
        exact compileExprs_eopnotsupp_of_reaches es (f ctx flow).1 (f ctx flow).2.1 h.2

/-- The first counting loop of `nft_flow_rule_create` computes the number
of expressions whose descriptor carries `NFT_OFFLOAD_F_ACTION`. -/
theorem countActionExprs_eq_countP (l : NftRule) :
    countActionExprs l
      = l.countP (fun e => e.ops.offload_flags &&& NFT_OFFLOAD_F_ACTION != 0) := by
  induction l with
  | nil => rfl
  | cons e es ih =>
      rw [List.countP_cons]
      unfold countActionExprs
      rw [ih]
      omega

/-- The action capacity `nft_flow_rule_create` allocates is the count from
its first loop, on every path. -/
theorem create_num_actions_allocated (rule : NftRule) :
    (nft_flow_rule_create rule).num_actions_allocated = countActionExprs rule := by
  cases h : compileExprs rule initOffloadCtx
      (nft_flow_rule_alloc (countActionExprs rule)) with
  | ok p => simp only [nft_flow_rule_create, h]
  | error err => simp only [nft_flow_rule_create, h]

/-- A new-rule record on an offload-enabled chain whose netlink flags mark
a replace, or do not mark an append, is rejected with `-EOPNOTSUPP`
without touching the chain store or producing any event. -/
theorem processTrans_newrule_reject (chains : List NftChain) (t : NftTrans)
    (hfam : t.family = NFPROTO_NETDEV) (htype : t.msg_type = .newrule)
    (hflag : (getChain chains t.chain).flags &&& NFT_CHAIN_HW_OFFLOAD ≠ 0)
    (hmode : t.flags &&& NLM_F_REPLACE ≠ 0 ∨ t.flags &&& NLM_F_APPEND = 0) :
    processTrans chains t = .did (-EOPNOTSUPP) chains [] := by
  have hflagb : ((getChain chains t.chain).flags &&& NFT_CHAIN_HW_OFFLOAD == 0)
      = false := by simp [hflag]
  have hmodeb : (t.flags &&& NLM_F_REPLACE != 0
      || t.flags &&& NLM_F_APPEND == 0) = true := by
    rcases hmode with h | h <;> simp [h]
  simp [processTrans, hfam, htype, hflagb, hmodeb]

/-- A new-rule record on an offload-enabled chain whose flags mark a pure
append dispatches a replace command and then destroys the record's flow
rule, whatever the dispatch returned. -/
theorem processTrans_newrule_accept (chains : List NftChain) (t : NftTrans)
    (hfam : t.family = NFPROTO_NETDEV) (htype : t.msg_type = .newrule)
    (hflag : (getChain chains t.chain).flags &&& NFT_CHAIN_HW_OFFLOAD ≠ 0)
    (hrep : t.flags &&& NLM_F_REPLACE = 0)
    (happ : t.flags &&& NLM_F_APPEND ≠ 0) :
    processTrans chains t
      = .did (nft_flow_offload_rule chains t .replace).1 chains
          ((nft_flow_offload_rule chains t .replace).2
            ++ [.destroyFlow t.rule_id]) := by
  have hflagb : ((getChain chains t.chain).flags &&& NFT_CHAIN_HW_OFFLOAD == 0)
      = false := by simp [hflag]
  have hmodeb : (t.flags &&& NLM_F_REPLACE != 0
      || t.flags &&& NLM_F_APPEND == 0) = false := by
    simp [hrep, happ]
  simp [processTrans, hfam, htype, hflagb, hmodeb]

/-- On a base chain, `nft_flow_offload_rule` dispatches the built
descriptor to the chain's block callback list. -/
theorem nft_flow_offload_rule_base (chains : List NftChain) (t : NftTrans)
    (command : FlowClsCommand) (bc : NftBaseChain)
    (hbase : (getChain chains t.chain).base = some bc) :
    nft_flow_offload_rule chains t command
      = ((nft_setup_cb_call bc.cb_list (ruleClsDescriptor t command)).1,
         [.hwCmd (getChain chains t.chain).id (ruleClsDescriptor t command)
            (nft_setup_cb_call bc.cb_list (ruleClsDescriptor t command)).2
            (nft_setup_cb_call bc.cb_list (ruleClsDescriptor t command)).1]) := by
  unfold nft_flow_offload_rule
  rw [hbase]

/-! ## Claim theorems -/

/-- C1: for every rule all of whose expressions declare the offload
capability and whose per-expression offload-compile calls all succeed,
`nft_flow_rule_create` returns a flow rule, and the action-list capacity
it allocated equals the number of expressions in the rule whose descriptor
carries `NFT_OFFLOAD_F_ACTION`. -/
theorem nft_flow_rule_create_ok_and_action_capacity (rule : NftRule)
    (h : offloadCallsSucceed rule initOffloadCtx
        (nft_flow_rule_alloc (countActionExprs rule))) :
    (∃ flow, (nft_flow_rule_create rule).result = .ok flow) ∧
    (nft_flow_rule_create rule).num_actions_allocated
      = rule.countP (fun e => e.ops.offload_flags &&& NFT_OFFLOAD_F_ACTION != 0) := by
  obtain ⟨p, hp⟩ := compileExprs_ok_of_succeed rule initOffloadCtx
    (nft_flow_rule_alloc (countActionExprs rule)) h
  constructor
  · exact ⟨{ p.2 with proto := p.1.dep.l3num },
      by simp only [nft_flow_rule_create, hp]⟩
  · rw [create_num_actions_allocated, countActionExprs_eq_countP]

/-- C1 witness: a two-expression rule (one action-bearing, one plain),
both offloadable and succeeding. -/
theorem nft_flow_rule_create_ok_and_action_capacity_witness :
    (∃ flow,
        (nft_flow_rule_create [exprOkAction, exprOkPlain]).result = .ok flow) ∧
    (nft_flow_rule_create [exprOkAction, exprOkPlain]).num_actions_allocated
      = List.countP (fun e => e.ops.offload_flags &&& NFT_OFFLOAD_F_ACTION != 0)
          [exprOkAction, exprOkPlain] :=
  nft_flow_rule_create_ok_and_action_capacity [exprOkAction, exprOkPlain]
    (by simp [offloadCallsSucceed, exprOkAction, exprOkPlain])

/-- C2 counterexample: the rule `[exprFailInval, exprNoOffload]` contains
an expression declaring no offload capability, yet `nft_flow_rule_create`
fails with `-EINVAL` (the earlier expression's error), not
`-EOPNOTSUPP`. -/
theorem create_missing_offload_counterexample :
    (exprNoOffload ∈ ([exprFailInval, exprNoOffload] : NftRule)
        ∧ exprNoOffload.ops.offload = none) ∧
    (nft_flow_rule_create [exprFailInval, exprNoOffload]).result
      ≠ .error (-EOPNOTSUPP) := by
  refine ⟨⟨by simp, rfl⟩, ?_⟩
  have h : (nft_flow_rule_create [exprFailInval, exprNoOffload]).result
      = .error (-22) := rfl
  rw [h]
  intro hc
  have h22 : (-22 : Int) = -EOPNOTSUPP := by injection hc
  norm_num [EOPNOTSUPP] at h22

/-- C2 amended: a rule containing an expression that declares no offload
capability always fails to compile and the partially built flow rule is
destroyed before returning (no flow rule is retained on any compilation
failure); the error is `-EOPNOTSUPP` specifically when every offload call
made before the first such expression returns a non-negative result. -/
theorem nft_flow_rule_create_missing_offload (rule : NftRule) :
    ((∃ e ∈ rule, e.ops.offload = none) →
      ∃ err, (nft_flow_rule_create rule).result = .error err ∧
        (nft_flow_rule_create rule).destroyed = true) ∧
    (reachesMissingOffload rule initOffloadCtx
        (nft_flow_rule_alloc (countActionExprs rule)) →
      (nft_flow_rule_create rule).result = .error (-EOPNOTSUPP) ∧
        (nft_flow_rule_create rule).destroyed = true) := by
  constructor
  · intro h
    obtain ⟨err, hp⟩ := compileExprs_error_of_missing rule initOffloadCtx
      (nft_flow_rule_alloc (countActionExprs rule)) h
    exact ⟨err, by simp only [nft_flow_rule_create, hp],
      by simp only [nft_flow_rule_create, hp]⟩
  · intro h
    have hp := compileExprs_eopnotsupp_of_reaches rule initOffloadCtx
      (nft_flow_rule_alloc (countActionExprs rule)) h
    exact ⟨by simp only [nft_flow_rule_create, hp],
      by simp only [nft_flow_rule_create, hp]⟩

/-- C2 witness: a rule whose only expression declares no offload
capability fails with `-EOPNOTSUPP` and the partial flow rule is
destroyed. -/
theorem nft_flow_rule_create_missing_offload_witness :
    (nft_flow_rule_create [exprNoOffload]).result = .error (-EOPNOTSUPP) ∧
    (nft_flow_rule_create [exprNoOffload]).destroyed = true :=
  (nft_flow_rule_create_missing_offload [exprNoOffload]).2
    (by unfold reachesMissingOffload exprNoOffload; simp)

/-- C6: with a pending network dependency, `nft_offload_update_dependency`
copies exactly the two bytes of `data` into `l3num` (leaving `protonum`
alone) and warns exactly when `len` is not 2; with a pending transport
dependency it copies exactly one byte into `protonum` (leaving `l3num`
alone) and warns exactly when `len` is not 1; in every case the pending
kind is reset to unspec, so an immediately following second call finds no
pending dependency and captures nothing (it leaves the context exactly as
the first call left it, without warning). -/
theorem nft_offload_update_dependency_spec (ctx : NftOffloadCtx)
    (data data2 : List Nat) (len len2 : Nat) :
    (ctx.dep.type = .network →
      (nft_offload_update_dependency ctx data len).1.dep.l3num
          = (data.getD 0 0, data.getD 1 0) ∧
      (nft_offload_update_dependency ctx data len).1.dep.protonum
          = ctx.dep.protonum ∧
      ((nft_offload_update_dependency ctx data len).2 = true ↔ len ≠ 2)) ∧
    (ctx.dep.type = .transport →
      (nft_offload_update_dependency ctx data len).1.dep.protonum
          = data.getD 0 0 ∧
      (nft_offload_update_dependency ctx data len).1.dep.l3num
          = ctx.dep.l3num ∧
      ((nft_offload_update_dependency ctx data len).2 = true ↔ len ≠ 1)) ∧
    (nft_offload_update_dependency ctx data len).1.dep.type = .unspec ∧
    nft_offload_update_dependency
        (nft_offload_update_dependency ctx data len).1 data2 len2
      = ((nft_offload_update_dependency ctx data len).1, false) := by
  refine ⟨?_, ?_, ?_, ?_⟩
  · intro htype
    simp [nft_offload_update_dependency, htype]
  · intro htype
    simp [nft_offload_update_dependency, htype]
  · rcases htype : ctx.dep.type <;>
      simp [nft_offload_update_dependency, htype]
  · rcases htype : ctx.dep.type <;>
      simp [nft_offload_update_dependency, htype]

/-- C6 witness: a network-dependency capture of the two bytes `[8, 0]`
with the correct length 2, followed by a second call that captures
nothing. -/
theorem nft_offload_update_dependency_spec_witness :
    ((nft_offload_update_dependency ctxNetworkEx [8, 0] 2).1.dep.l3num = (8, 0) ∧
     (nft_offload_update_dependency ctxNetworkEx [8, 0] 2).1.dep.protonum
        = ctxNetworkEx.dep.protonum ∧
     ((nft_offload_update_dependency ctxNetworkEx [8, 0] 2).2 = true ↔ (2 : Nat) ≠ 2)) ∧
    nft_offload_update_dependency
        (nft_offload_update_dependency ctxNetworkEx [8, 0] 2).1 [6] 1
      = ((nft_offload_update_dependency ctxNetworkEx [8, 0] 2).1, false) :=
  ⟨(nft_offload_update_dependency_spec ctxNetworkEx [8, 0] [6] 2 1).1 rfl,
   (nft_offload_update_dependency_spec ctxNetworkEx [8, 0] [6] 2 1).2.2.2⟩

/-- C3: the commit walk processes the transaction log in insertion order,
skipping records whose family is not `NFPROTO_NETDEV` and records whose
owning chain lacks `NFT_CHAIN_HW_OFFLOAD`; the first processed record that
fails stops the walk and its error is returned, and the operations already
applied for the earlier records of the same walk are kept exactly as the
clean prefix committed them (no rollback), with the remainder of the log
left unprocessed. -/
theorem commit_first_failure_no_rollback :
    (∀ (chains : List NftChain) (t : NftTrans),
        t.family ≠ NFPROTO_NETDEV → processTrans chains t = .skip) ∧
    (∀ (chains : List NftChain) (t : NftTrans),
        (getChain chains t.chain).flags &&& NFT_CHAIN_HW_OFFLOAD = 0 →
        processTrans chains t = .skip) ∧
    (∀ (pre rest : List NftTrans) (t : NftTrans)
        (chains chains1 cs2 : List NftChain)
        (evs1 evs2 : List CommitEvent) (e : Int),
        nft_flow_rule_offload_commit pre chains = (0, chains1, evs1) →
        processTrans chains1 t = .did e cs2 evs2 → e ≠ 0 →
        nft_flow_rule_offload_commit (pre ++ t :: rest) chains
          = (e, cs2, evs1 ++ evs2)) := by
  refine ⟨processTrans_skip_family, processTrans_skip_flag, ?_⟩
  intro pre rest t chains chains1 cs2 evs1 evs2 e hpre hp he
  rw [commit_append_of_ok pre (t :: rest) chains chains1 evs1 hpre,
    commit_cons_did t rest chains1 cs2 e evs2 hp,
    if_pos (bne_iff_ne.mpr he)]

/-- C3 witness: a skipped foreign-family record followed by a failing
new-chain record on a non-base chain: the walk returns that record's
`-EOPNOTSUPP` with the (empty) prefix trace retained. -/
theorem commit_first_failure_no_rollback_witness :
    nft_flow_rule_offload_commit
        ([transOtherFamily] ++ transFailChain :: []) [chainHWNoBase]
      = (-EOPNOTSUPP, [chainHWNoBase], [] ++ []) :=
  commit_first_failure_no_rollback.2.2 [transOtherFamily] [] transFailChain
    [chainHWNoBase] [chainHWNoBase] [chainHWNoBase] [] [] (-EOPNOTSUPP)
    rfl rfl (by decide)

/-- C4: a commit whose log holds, after a cleanly committing prefix, a
new-rule record on an offload-enabled chain whose insertion flags mark a
replace or do not mark an append, fails with `-EOPNOTSUPP` — whatever
compiled flow rule the record carries. -/
theorem commit_newrule_nonappend_unsupported (pre rest : List NftTrans)
    (t : NftTrans) (chains chains1 : List NftChain) (evs1 : List CommitEvent)
    (fl : Option NftFlowRule)
    (hpre : nft_flow_rule_offload_commit pre chains = (0, chains1, evs1))
    (hfam : t.family = NFPROTO_NETDEV) (htype : t.msg_type = .newrule)
    (hflag : (getChain chains1 t.chain).flags &&& NFT_CHAIN_HW_OFFLOAD ≠ 0)
    (hmode : t.flags &&& NLM_F_REPLACE ≠ 0 ∨ t.flags &&& NLM_F_APPEND = 0) :
    nft_flow_rule_offload_commit (pre ++ { t with flow := fl } :: rest) chains
      = (-EOPNOTSUPP, chains1, evs1) := by
  have hp : processTrans chains1 { t with flow := fl }
      = .did (-EOPNOTSUPP) chains1 [] :=
    processTrans_newrule_reject chains1 { t with flow := fl }
      hfam htype hflag hmode
  rw [commit_append_of_ok pre ({ t with flow := fl } :: rest) chains chains1
      evs1 hpre,
    commit_cons_did { t with flow := fl } rest chains1 chains1
      (-EOPNOTSUPP) [] hp,
    if_pos (by decide)]
  simp

/-- C4 witness: a one-record log whose new-rule record has `NLM_F_REPLACE`
set and carries a compiled flow rule. -/
theorem commit_newrule_nonappend_unsupported_witness :
    nft_flow_rule_offload_commit
        ([] ++ { transNewRule NLM_F_REPLACE none with flow := some flowEx } :: [])
        [chainHW]
      = (-EOPNOTSUPP, [chainHW], []) :=
  commit_newrule_nonappend_unsupported [] [] (transNewRule NLM_F_REPLACE none)
    [chainHW] [chainHW] [] (some flowEx) rfl rfl rfl (by decide)
    (Or.inl (by decide))

/-- C10: when the commit walk rejects a new-rule record for its insertion
mode it returns `-EOPNOTSUPP` with no event at all — in particular no
destruction of the record's attached flow rule, which the record still
owns; on the accepted (pure-append) path over a base chain, the record's
flow rule is destroyed right after the hardware replace command is
dispatched, whatever result that dispatch returned. -/
theorem commit_newrule_flow_ownership (chains : List NftChain) (t : NftTrans)
    (hfam : t.family = NFPROTO_NETDEV) (htype : t.msg_type = .newrule)
    (hflag : (getChain chains t.chain).flags &&& NFT_CHAIN_HW_OFFLOAD ≠ 0) :
    ((t.flags &&& NLM_F_REPLACE ≠ 0 ∨ t.flags &&& NLM_F_APPEND = 0) →
        processTrans chains t = .did (-EOPNOTSUPP) chains []) ∧
    (t.flags &&& NLM_F_REPLACE = 0 → t.flags &&& NLM_F_APPEND ≠ 0 →
        ∀ bc, (getChain chains t.chain).base = some bc →
        processTrans chains t
          = .did (nft_setup_cb_call bc.cb_list
                (ruleClsDescriptor t .replace)).1 chains
              [.hwCmd (getChain chains t.chain).id (ruleClsDescriptor t .replace)
                  (nft_setup_cb_call bc.cb_list (ruleClsDescriptor t .replace)).2
                  (nft_setup_cb_call bc.cb_list (ruleClsDescriptor t .replace)).1,
               .destroyFlow t.rule_id]) := by
  constructor
  · intro hmode
    exact processTrans_newrule_reject chains t hfam htype hflag hmode
  · intro hrep happ bc hbase
    rw [processTrans_newrule_accept chains t hfam htype hflag hrep happ,
      nft_flow_offload_rule_base chains t .replace bc hbase]
    rfl

/-- C10 witness: on `chainHW`, a replace-flagged record is rejected with
no destroy event, while an append-flagged record dispatches the replace
command and destroys its flow rule. -/
theorem commit_newrule_flow_ownership_witness :
    processTrans [chainHW] (transNewRule NLM_F_REPLACE (some flowEx))
      = .did (-EOPNOTSUPP) [chainHW] [] ∧
    processTrans [chainHW] (transNewRule NLM_F_APPEND (some flowEx))
      = .did (nft_setup_cb_call [cbOk2]
            (ruleClsDescriptor (transNewRule NLM_F_APPEND (some flowEx))
              .replace)).1 [chainHW]
          [.hwCmd 1
              (ruleClsDescriptor (transNewRule NLM_F_APPEND (some flowEx))
                .replace)
              (nft_setup_cb_call [cbOk2]
                (ruleClsDescriptor (transNewRule NLM_F_APPEND (some flowEx))
                  .replace)).2
              (nft_setup_cb_call [cbOk2]
                (ruleClsDescriptor (transNewRule NLM_F_APPEND (some flowEx))
                  .replace)).1,
           .destroyFlow 77] :=
  ⟨(commit_newrule_flow_ownership [chainHW]
      (transNewRule NLM_F_REPLACE (some flowEx)) rfl rfl (by decide)).1
      (Or.inl (by decide)),
   (commit_newrule_flow_ownership [chainHW]
      (transNewRule NLM_F_APPEND (some flowEx)) rfl rfl (by decide)).2
      (by decide) (by decide)
      { dev := some devDirect, dev_name := "eth0", cb_list := [cbOk2] } rfl⟩

/-- On a base chain with a device, a bind with a staged policy other than
accept or unset is refused before any device dispatch. -/
theorem nft_flow_offload_chain_policy_reject (chains : List NftChain)
    (t : NftTrans) (bc : NftBaseChain) (dev : NetDevice)
    (hbase : (getChain chains t.chain).base = some bc)
    (hdev : bc.dev = some dev)
    (h1 : t.policy ≠ -1) (h2 : t.policy ≠ NF_ACCEPT) :
    nft_flow_offload_chain chains t .bind = (-EOPNOTSUPP, chains, []) := by
  have hc : (FlowBlockCommand.bind == FlowBlockCommand.bind
      && t.policy != -1 && t.policy != NF_ACCEPT) = true := by
    simp [h1, h2]
  simp only [nft_flow_offload_chain, hbase, hdev]
  rw [if_pos hc]

/-- On a base chain with a device, a bind whose staged policy is accept or
unset passes the policy check and dispatches the block command. -/
theorem nft_flow_offload_chain_policy_pass (chains : List NftChain)
    (t : NftTrans) (bc : NftBaseChain) (dev : NetDevice)
    (hbase : (getChain chains t.chain).base = some bc)
    (hdev : bc.dev = some dev)
    (hpol : t.policy = -1 ∨ t.policy = NF_ACCEPT) :
    nft_flow_offload_chain chains t .bind
      = ((blockCmdResult bc dev .bind).1,
         setChain chains { getChain chains t.chain with
           base := some { bc with cb_list := (blockCmdResult bc dev .bind).2 } },
         [.blockCmd (getChain chains t.chain).id .bind
            (blockCmdResult bc dev .bind).1]) := by
  have hc : (FlowBlockCommand.bind == FlowBlockCommand.bind
      && t.policy != -1 && t.policy != NF_ACCEPT) = false := by
    rcases hpol with h | h <;> simp [h]
  simp only [nft_flow_offload_chain, hbase, hdev]
  rw [if_neg (by rw [hc]; simp)]

/-- C5: binding an offload-enabled chain fails with `-EOPNOTSUPP` whenever
the staged default policy is neither accept nor unset; with accept or
unset the policy check passes and the bind proceeds to dispatch a block
command.  Concretely, a commit whose log holds one new-chain record with
policy drop fails with `-EOPNOTSUPP`, while the same log with policy
accept succeeds. -/
theorem chain_bind_policy (chains : List NftChain) (t : NftTrans)
    (bc : NftBaseChain) (dev : NetDevice)
    (hbase : (getChain chains t.chain).base = some bc)
    (hdev : bc.dev = some dev) :
    (t.policy ≠ -1 → t.policy ≠ NF_ACCEPT →
        nft_flow_offload_chain chains t .bind = (-EOPNOTSUPP, chains, [])) ∧
    ((t.policy = -1 ∨ t.policy = NF_ACCEPT) →
        (nft_flow_offload_chain chains t .bind).2.2
          = [.blockCmd (getChain chains t.chain).id .bind
              (nft_flow_offload_chain chains t .bind).1]) ∧
    (nft_flow_rule_offload_commit [transNewChain NF_DROP] [chainHW]).1
      = -EOPNOTSUPP ∧
    (nft_flow_rule_offload_commit [transNewChain NF_ACCEPT] [chainHW]).1
      = 0 := by
  refine ⟨fun h1 h2 =>
      nft_flow_offload_chain_policy_reject chains t bc dev hbase hdev h1 h2,
    fun hpol => ?_, rfl, rfl⟩
  rw [nft_flow_offload_chain_policy_pass chains t bc dev hbase hdev hpol]

/-- C5 witness: the policy-drop rejection at a concrete chain, device and
record. -/
theorem chain_bind_policy_witness :
    nft_flow_offload_chain [chainHW] (transNewChain NF_DROP) .bind
      = (-EOPNOTSUPP, [chainHW], []) :=
  (chain_bind_policy [chainHW] (transNewChain NF_DROP)
      { dev := some devDirect, dev_name := "eth0", cb_list := [cbOk2] }
      devDirect rfl rfl).1 (by decide) (by decide)

/-- The callback walk stops at the first callback returning a negative
error: everything before it ran, nothing after it is invoked. -/
theorem nft_setup_cb_call_stops_at_failure :
    ∀ (l1 : List FlowBlockCb) (c : FlowBlockCb) (l2 : List FlowBlockCb)
      (cls : FlowClsOffload),
      (∀ b ∈ l1, 0 ≤ b.cb cls) → c.cb cls < 0 →
      nft_setup_cb_call (l1 ++ c :: l2) cls
        = (c.cb cls, (l1 ++ [c]).map FlowBlockCb.id)
  | [], c, l2, cls, hok, hfail => by
      simp only [List.nil_append]
      conv_lhs => unfold nft_setup_cb_call
      rw [if_pos hfail]
      simp
  | b :: l1, c, l2, cls, hok, hfail => by
      have hb : 0 ≤ b.cb cls := hok b (by simp)
      have hrest : ∀ x ∈ l1, 0 ≤ x.cb cls := fun x hx => hok x (by simp [hx])
      have ih := nft_setup_cb_call_stops_at_failure l1 c l2 cls hrest hfail
      simp only [List.cons_append]
      conv_lhs => unfold nft_setup_cb_call
      rw [if_neg (not_lt.mpr hb), ih]
      simp

/-- C8: a per-rule hardware command is dispatched to the callbacks of the
target chain's block in registration-list order, and the first callback
returning failure ends the dispatch with that failure, so the callbacks
after it are never invoked for that record. -/
theorem hw_command_dispatch_order (l1 l2 : List FlowBlockCb)
    (c : FlowBlockCb) (cls : FlowClsOffload)
    (hok : ∀ b ∈ l1, 0 ≤ b.cb cls) (hfail : c.cb cls < 0) :
    nft_setup_cb_call (l1 ++ c :: l2) cls
      = (c.cb cls, (l1 ++ [c]).map FlowBlockCb.id) ∧
    (∀ (chains : List NftChain) (t : NftTrans) (command : FlowClsCommand)
        (bc : NftBaseChain), (getChain chains t.chain).base = some bc →
        nft_flow_offload_rule chains t command
          = ((nft_setup_cb_call bc.cb_list (ruleClsDescriptor t command)).1,
             [.hwCmd (getChain chains t.chain).id (ruleClsDescriptor t command)
                (nft_setup_cb_call bc.cb_list (ruleClsDescriptor t command)).2
                (nft_setup_cb_call bc.cb_list
                  (ruleClsDescriptor t command)).1])) :=
  ⟨nft_setup_cb_call_stops_at_failure l1 c l2 cls hok hfail,
   fun chains t command bc hbase =>
     nft_flow_offload_rule_base chains t command bc hbase⟩

/-- C8 witness: with callbacks `[cbOk, cbFail, cbOk2]`, the walk returns
`cbFail`'s error having invoked only `cbOk` and `cbFail`. -/
theorem hw_command_dispatch_order_witness :
    nft_setup_cb_call ([cbOk] ++ cbFail :: [cbOk2]) clsEx
      = (cbFail.cb clsEx, ([cbOk] ++ [cbFail]).map FlowBlockCb.id) :=
  (hw_command_dispatch_order [cbOk] [cbOk2] cbFail clsEx
    (by intro b hb; rw [List.mem_singleton] at hb; subst hb; decide)
    (by decide)).1

/-- A found chain carries the looked-up id. -/
theorem chainById_found_id (chains : List NftChain) (cid : Nat)
    (ch : NftChain) (h : chainById chains cid = some ch) : ch.id = cid := by
  have := List.find?_some h
  exact beq_iff_eq.mp this

/-- Writing back a chain with the found id makes the next lookup return
the written chain. -/
theorem chainById_setChain_found :
    ∀ (chains : List NftChain) (cid : Nat) (ch c : NftChain),
      chainById chains cid = some ch → c.id = cid →
      chainById (setChain chains c) cid = some c
  | [], cid, ch, c, h, _ => by simp [chainById] at h
  | x :: rest, cid, ch, c, h, hc => by
      by_cases hx : x.id = cid
      · have hxc : (x.id == c.id) = true := beq_iff_eq.mpr (by rw [hx, hc])
        have hcid : (c.id == cid) = true := beq_iff_eq.mpr hc
        simp only [setChain, List.map_cons, hxc, if_true]
        unfold chainById
        exact List.find?_cons_of_pos _ hcid
      · have hxc : (x.id == c.id) = false :=
          beq_eq_false_iff_ne.mpr (by rw [hc]; exact hx)
        have hfind : (x.id == cid) = false := beq_eq_false_iff_ne.mpr hx
        have h' : chainById rest cid = some ch := by
          unfold chainById at h
          rwa [List.find?_cons_of_neg _ (by simp [hfind])] at h
        have ih := chainById_setChain_found rest cid ch c h' hc
        simp only [setChain, List.map_cons, hxc, if_false]
        unfold chainById
        rw [List.find?_cons_of_neg _ (by simp [hfind])]
        exact ih

/-- Dereferencing a chain found in the store. -/
theorem getChain_eq (chains : List NftChain) (cid : Nat) (ch : NftChain)
    (h : chainById chains cid = some ch) : getChain chains cid = ch := by
  unfold getChain
  rw [h]
  rfl

/-- C9: for a device without a native classification-setup entry point,
binding a chain's block goes through the indirect path: when no callback
added itself to the bind descriptor in response, the bind fails with
`-EOPNOTSUPP` and the chain's block is left untouched; when at least one
did, the bind succeeds and exactly that list is spliced in front of the
chain's block callbacks. -/
theorem indirect_bind_requires_callback (chains : List NftChain)
    (t : NftTrans) (ch : NftChain) (bc : NftBaseChain) (dev : NetDevice)
    (hch : chainById chains t.chain = some ch)
    (hbase : ch.base = some bc) (hdev : bc.dev = some dev)
    (hndo : dev.ndo_setup_tc = none)
    (hpol : t.policy = -1 ∨ t.policy = NF_ACCEPT) :
    (dev.indr_cbs .bind = [] →
        (nft_flow_offload_chain chains t .bind).1 = -EOPNOTSUPP ∧
        getChain (nft_flow_offload_chain chains t .bind).2.1 t.chain = ch) ∧
    (dev.indr_cbs .bind ≠ [] →
        (nft_flow_offload_chain chains t .bind).1 = 0 ∧
        getChain (nft_flow_offload_chain chains t .bind).2.1 t.chain
          = { ch with base := some { bc with
              cb_list := dev.indr_cbs .bind ++ bc.cb_list } }) := by
  have hgc : getChain chains t.chain = ch := getChain_eq chains t.chain ch hch
  have hid : ch.id = t.chain := chainById_found_id chains t.chain ch hch
  have hbase' : (getChain chains t.chain).base = some bc := by rw [hgc]; exact hbase
  have hpass := nft_flow_offload_chain_policy_pass chains t bc dev hbase' hdev hpol
  have hblock : blockCmdResult bc dev .bind
      = nft_indr_block_offload_cmd bc.cb_list dev .bind := by
    unfold blockCmdResult
    rw [hndo]
    rfl
  constructor
  · intro hempty
    have hind : nft_indr_block_offload_cmd bc.cb_list dev .bind
        = (-EOPNOTSUPP, bc.cb_list) := by
      unfold nft_indr_block_offload_cmd
      rw [hempty]
      rfl
    constructor
    · rw [hpass, hblock, hind]
    · rw [hpass]
      have hc2 : { getChain chains t.chain with base := some { bc with
          cb_list := (blockCmdResult bc dev .bind).2 } } = ch := by
        rw [hblock, hind, hgc, ← hbase]
      rw [hc2]
      exact getChain_eq _ _ _
        (chainById_setChain_found chains t.chain ch ch hch hid)
  · intro hne
    have hind : nft_indr_block_offload_cmd bc.cb_list dev .bind
        = (0, dev.indr_cbs .bind ++ bc.cb_list) := by
      unfold nft_indr_block_offload_cmd
      rw [if_neg (by simp [hne])]
      rfl
    constructor
    · rw [hpass, hblock, hind]
    · rw [hpass]
      have hc2 : { getChain chains t.chain with base := some { bc with
          cb_list := (blockCmdResult bc dev .bind).2 } }
          = { ch with base := some { bc with
              cb_list := dev.indr_cbs .bind ++ bc.cb_list } } := by
        rw [hblock, hind, hgc]
      rw [hc2]
      exact getChain_eq _ _ _
        (chainById_setChain_found chains t.chain ch
          { ch with base := some { bc with
              cb_list := dev.indr_cbs .bind ++ bc.cb_list } } hch hid)

/-- C9 witness: binding `chainLateJoin` (device `eth1`, no native entry
point) with one indirect registration splices that callback in front of
the already-bound one. -/
theorem indirect_bind_requires_callback_witness :
    (nft_flow_offload_chain [chainLateJoin] transBindIndir .bind).1 = 0 ∧
    getChain (nft_flow_offload_chain [chainLateJoin] transBindIndir .bind).2.1
        transBindIndir.chain
      = { chainLateJoin with
          base := some { dev := some devIndirSome, dev_name := "eth1",
                         cb_list := devIndirSome.indr_cbs .bind ++ [cbOk2] } } :=
  (indirect_bind_requires_callback [chainLateJoin] transBindIndir
      chainLateJoin
      { dev := some devIndirSome, dev_name := "eth1", cb_list := [cbOk2] }
      devIndirSome rfl rfl rfl rfl (Or.inr rfl)).2
    (by simp [devIndirSome])

/-- A chain list with no name match is scanned without effect. -/
theorem lateJoinChains_all_nomatch :
    ∀ (cs : List NftChain) (devname : String) (cb : IndrCb)
      (cmd : FlowBlockCommand),
      (∀ c ∈ cs, lateJoinMatch devname c = false) →
      lateJoinChains devname cb cmd cs = (cs, 0)
  | [], _, _, _, _ => rfl
  | c :: cs, devname, cb, cmd, h => by
      have hc : lateJoinMatch devname c = false := h c (by simp)
      have ih := lateJoinChains_all_nomatch cs devname cb cmd
        (fun x hx => h x (by simp [hx]))
      conv_lhs => unfold lateJoinChains
      rw [if_neg (by simp [hc]), ih]

/-- The chain scan dispatches on the first matching base chain and leaves
every other chain untouched. -/
theorem lateJoinChains_first_match :
    ∀ (c1 : List NftChain) (c : NftChain) (c2 : List NftChain)
      (bc : NftBaseChain) (devname : String) (cb : IndrCb)
      (cmd : FlowBlockCommand),
      (∀ x ∈ c1, lateJoinMatch devname x = false) →
      c.base = some bc → bc.dev_name = devname →
      lateJoinChains devname cb cmd (c1 ++ c :: c2)
        = (c1 ++ { c with base := some { bc with
            cb_list := (nft_block_setup bc.cb_list (cb.provide cmd) cmd).2 } }
            :: c2,
           1)
  | [], c, c2, bc, devname, cb, cmd, _, hbase, hname => by
      have hmatch : lateJoinMatch devname c = true := by
        simp [lateJoinMatch, hbase, hname]
      simp only [List.nil_append]
      conv_lhs => unfold lateJoinChains
      rw [if_pos hmatch]
      simp only [hbase]
      rfl
  | x :: c1, c, c2, bc, devname, cb, cmd, hprev, hbase, hname => by
      have hx : lateJoinMatch devname x = false := hprev x (by simp)
      have ih := lateJoinChains_first_match c1 c c2 bc devname cb cmd
        (fun y hy => hprev y (by simp [hy])) hbase hname
      simp only [List.cons_append]
      conv_lhs => unfold lateJoinChains
      rw [if_neg (by simp [hx]), ih]

/-- C7: when a driver-agnostic callback becomes available for a device,
the late-join path scans the device-family tables and their chains in
order, dispatches the block command once through the newly available
callback alone on the first base chain whose device name matches, stops
there, and leaves every other table and chain — and, on bind, every
callback already bound to that chain — untouched (the new callbacks are
spliced in front of the existing list). -/
theorem late_join_single_dispatch :
    ∀ (t1 t2 : List NftTable) (tb : NftTable) (c1 c2 : List NftChain)
      (c : NftChain) (bc : NftBaseChain) (cb : IndrCb)
      (cmd : FlowBlockCommand) (devname : String),
      tb.family = NFPROTO_NETDEV →
      tb.chains = c1 ++ c :: c2 →
      c.base = some bc → bc.dev_name = devname →
      (∀ tb2 ∈ t1, tb2.family = NFPROTO_NETDEV →
          ∀ x ∈ tb2.chains, lateJoinMatch devname x = false) →
      (∀ x ∈ c1, lateJoinMatch devname x = false) →
      nft_indr_block_get_and_ing_cmd devname cb cmd (t1 ++ tb :: t2)
        = (t1 ++ { tb with chains := c1 ++ { c with base := some { bc with
              cb_list := (nft_block_setup bc.cb_list (cb.provide cmd) cmd).2 } }
              :: c2 } :: t2,
           1) ∧
      nft_flow_offload_bind (cb.provide .bind) bc.cb_list
        = (0, cb.provide .bind ++ bc.cb_list)
  | [], t2, tb, c1, c2, c, bc, cb, cmd, devname => by
      intro hfam hchains hbase hname _ hprev
      have hl := lateJoinChains_first_match c1 c c2 bc devname cb cmd
        hprev hbase hname
      refine ⟨?_, rfl⟩
      simp only [List.nil_append]
      conv_lhs => unfold nft_indr_block_get_and_ing_cmd
      rw [if_neg (by simp [hfam]), hchains, hl]
      simp
  | x :: t1, t2, tb, c1, c2, c, bc, cb, cmd, devname => by
      intro hfam hchains hbase hname hskip hprev
      have ih := late_join_single_dispatch t1 t2 tb c1 c2 c bc cb cmd devname
        hfam hchains hbase hname
        (fun tb2 htb2 => hskip tb2 (by simp [htb2])) hprev
      refine ⟨?_, rfl⟩
      simp only [List.cons_append]
      conv_lhs => unfold nft_indr_block_get_and_ing_cmd
      by_cases hxf : x.family = NFPROTO_NETDEV
      · have hnm : ∀ ch ∈ x.chains, lateJoinMatch devname ch = false :=
          hskip x (by simp) hxf
        have hlc := lateJoinChains_all_nomatch x.chains devname cb cmd hnm
        rw [if_neg (by simp [hxf]), hlc]
        simp [ih.1]
      · rw [if_pos (bne_iff_ne.mpr hxf), ih.1]

/-- C7 witness: with a foreign-family table first, then a device-family
table holding a non-matching chain and the bound chain for `eth1`, the
late join dispatches exactly once and splices the new callback in front of
the chain's already-bound callback. -/
theorem late_join_single_dispatch_witness :
    nft_indr_block_get_and_ing_cmd "eth1" indrCbEx .bind
        ([tableIpv4] ++ tableNetdev :: [])
      = ([tableIpv4] ++ { tableNetdev with chains := [chainOtherDev] ++
            { chainLateJoin with
              base := some { dev := some devIndirSome, dev_name := "eth1",
                             cb_list := (nft_block_setup [cbOk2]
                                (indrCbEx.provide .bind) .bind).2 } }
              :: [] } :: [],
         1) ∧
    nft_flow_offload_bind (indrCbEx.provide .bind) [cbOk2]
      = (0, indrCbEx.provide .bind ++ [cbOk2]) :=
  late_join_single_dispatch [tableIpv4] [] tableNetdev [chainOtherDev] []
    chainLateJoin
    { dev := some devIndirSome, dev_name := "eth1", cb_list := [cbOk2] }
    indrCbEx .bind "eth1" rfl rfl rfl rfl
    (by
      intro tb2 htb2 hf
      rw [List.mem_singleton] at htb2
      subst htb2
      exact absurd hf (by decide))
    (by
      intro x hx
      rw [List.mem_singleton] at hx
      subst hx
      rfl)
